import Mathlib

/-!
Verification development for the fusion-reel retrieval pipeline.

The Python source is embedded shallowly:

* `src/query_parser/regex_parser.py` — the regex-based filter extractor.
  Query text is a `List Char`; each regular expression used by the source
  is embedded as an explicit scanner over the character list that
  reproduces the regex engine's leftmost-match semantics (including word
  boundaries, greedy repetition with the relevant backtracking cases, and
  case-insensitive matching where the source passes `re.IGNORECASE`).
* `src/fusion/rrf_fusion.py` — weighted reciprocal-rank fusion.  Scores
  are rationals (`ℚ`), document ids are naturals.  Python's `set` union
  iteration order is not specified, so `fuse` takes the iteration order
  of the id set as an explicit parameter; `validOrder` says which orders
  can occur.  Python's stable `sorted(..., reverse=True)` is embedded as
  a stable descending insertion sort.
* `src/search_engine.py` — strategy dispatch; collaborator invocations
  are recorded as the argument tuples that the code passes to them.
-/

/-! ## Character classes (ASCII semantics of the regex classes used) -/

/-- The regex class `\d` on the characters the patterns can accept. -/
def isDig (c : Char) : Bool := 48 ≤ c.toNat && c.toNat ≤ 57

/-- The regex class `\w` (letters, digits, underscore). -/
def isWordC (c : Char) : Bool :=
  isDig c || (65 ≤ c.toNat && c.toNat ≤ 90) || (97 ≤ c.toNat && c.toNat ≤ 122) || c.toNat == 95

/-- The regex class `\s` (whitespace). -/
def isSpc (c : Char) : Bool :=
  c.toNat == 32 || c.toNat == 9 || c.toNat == 10 || c.toNat == 13 || c.toNat == 12 || c.toNat == 11

/-- ASCII lowercasing, as `str.lower` / `re.IGNORECASE` act on the inputs here. -/
def lowerAscii (c : Char) : Char :=
  if 65 ≤ c.toNat && c.toNat ≤ 90 then Char.ofNat (c.toNat + 32) else c

/-- Numeric value of a digit character. -/
def digVal (c : Char) : Nat := c.toNat - 48

/-- Word boundary `\b` immediately before a word character: the previous
character (if any) must not be a word character. -/
def wb (prev : Option Char) : Bool :=
  match prev with
  | none => true
  | some c => !isWordC c

/-- Word boundary `\b` immediately before a non-word character such as `<`:
the previous character must be a word character. -/
def wbNW (prev : Option Char) : Bool :=
  match prev with
  | none => false
  | some c => isWordC c

/-- Word boundary `\b` directly after a word character: the rest of the
input must be empty or start with a non-word character. -/
def bdryAfterWord (rest : List Char) : Bool :=
  match rest with
  | [] => true
  | c :: _ => !isWordC c

/-- Case-insensitive literal match: drop the (lowercase) pattern `pat` from
the front of `l`, returning the remainder. -/
def dropLitCI (pat : List Char) (l : List Char) : Option (List Char) :=
  match pat, l with
  | [], rest => some rest
  | _ :: _, [] => none
  | p :: ps, c :: cs => if lowerAscii c = p then dropLitCI ps cs else none

/-- Ordered alternation of literal keywords (the keyword lists used by the
source are pairwise prefix-incompatible, so committing to the first
prefix match reproduces the regex alternation). -/
def firstKW (kws : List (List Char)) (l : List Char) : Option (List Char × List Char) :=
  kws.findSome? (fun kw => (dropLitCI kw l).map (fun r => (kw, r)))

/-- Numeric value of a digit string. -/
def natOf (ds : List Char) : Nat := ds.foldl (fun a c => 10 * a + digVal c) 0

/-- Value of `\d+\.\d+` as an exact rational. -/
def ratOf (ds fs : List Char) : ℚ := (natOf ds : ℚ) + (natOf fs : ℚ) / (10 ^ fs.length)

/-! ## Generic leftmost scanning (`re.search`) and global removal (`re.sub`) -/

/-- Leftmost match: try the pattern at each position, threading the
preceding character for word-boundary tests; return the first captures. -/
def scanFirst (tryA : Option Char → List Char → Option (α × List Char)) :
    Option Char → List Char → Option α
  | prev, [] => (tryA prev []).map Prod.fst
  | prev, c :: r =>
    match tryA prev (c :: r) with
    | some (a, _) => some a
    | none => scanFirst tryA (some c) r

/-- Remove every non-overlapping leftmost match (`re.sub(pat, '', s)`).
All the embedded patterns consume at least one character, so fuel equal to
the input length suffices. -/
def subAllAux (tryA : Option Char → List Char → Option (α × List Char)) :
    Nat → Option Char → List Char → List Char
  | 0, _, l => l
  | _ + 1, _, [] => []
  | fuel + 1, prev, c :: r =>
    match tryA prev (c :: r) with
    | some (_, rest) =>
      let len := (c :: r).length - rest.length
      if len = 0 then c :: subAllAux tryA fuel (some c) r
      else
        match ((c :: r).take len).getLast? with
        | some d => subAllAux tryA fuel (some d) rest
        | none => subAllAux tryA fuel prev rest
    | none => c :: subAllAux tryA fuel (some c) r

def subAll (tryA : Option Char → List Char → Option (α × List Char)) (l : List Char) :
    List Char :=
  subAllAux tryA l.length none l

/-- Python `str.strip()`. -/
def stripWS (l : List Char) : List Char :=
  ((l.dropWhile isSpc).reverse.dropWhile isSpc).reverse

/-- Collapse whitespace runs to a single blank, as `re.sub(r'\s+', ' ', s)`. -/
def collapseAux : Bool → List Char → List Char
  | _, [] => []
  | prevSpace, c :: r =>
    if isSpc c then
      if prevSpace then collapseAux true r else ' ' :: collapseAux true r
    else c :: collapseAux false r

/-- The final cleanup `re.sub(r'\s+', ' ', s).strip()` applied by every
extraction method of the parser. -/
def finClean (l : List Char) : List Char := stripWS (collapseAux false l)

/-! ## Year extraction (`RegexParser.extract_year_range`) -/

/-- Parse `(?:19|20)\d{2}` (no trailing boundary), returning the year. -/
def year4 : List Char → Option (Nat × List Char)
  | c1 :: c2 :: c3 :: c4 :: rest =>
    if ((c1 = '1' ∧ c2 = '9') ∨ (c1 = '2' ∧ c2 = '0')) ∧ isDig c3 ∧ isDig c4 then
      some (natOf [c1, c2, c3, c4], rest)
    else none
  | _ => none

/-- The range separator `(?:-|to)` with `re.IGNORECASE`. -/
def rangeSep : List Char → Option (List Char)
  | '-' :: r => some r
  | l => dropLitCI ['t', 'o'] l

/-- Pattern 1: `\b((?:19|20)\d{2})\s*(?:-|to)\s*((?:19|20)\d{2})\b`. -/
def tryYearRange (prev : Option Char) (l : List Char) : Option ((Nat × Nat) × List Char) :=
  if wb prev then
    match year4 l with
    | some (y1, r1) =>
      match rangeSep (r1.dropWhile isSpc) with
      | some r3 =>
        match year4 (r3.dropWhile isSpc) with
        | some (y2, r5) => if bdryAfterWord r5 then some ((y1, y2), r5) else none
        | none => none
      | none => none
    | none => none
  else none

/-- Pattern 2: `\b(19|20)\d{2}\b` (no IGNORECASE flag in the source). -/
def trySingleYear (prev : Option Char) (l : List Char) : Option (Nat × List Char) :=
  if wb prev then
    match year4 l with
    | some (y, r) => if bdryAfterWord r then some (y, r) else none
    | none => none
  else none

/-- Pattern 3: `\b(\d{2})s\b`, capturing the two-digit decade. -/
def tryDecade (prev : Option Char) (l : List Char) : Option (Nat × List Char) :=
  if wb prev then
    match l with
    | c1 :: c2 :: c3 :: r =>
      if isDig c1 ∧ isDig c2 ∧ lowerAscii c3 = 's' ∧ bdryAfterWord r then
        some (10 * digVal c1 + digVal c2, r)
      else none
    | _ => none
  else none

inductive Period where
  | early
  | late
  | mid
deriving DecidableEq

def periodOf (kw : List Char) : Period :=
  if kw = ['e', 'a', 'r', 'l', 'y'] then .early
  else if kw = ['l', 'a', 't', 'e'] then .late
  else .mid

def periodKWs : List (List Char) :=
  [['e', 'a', 'r', 'l', 'y'], ['l', 'a', 't', 'e'], ['m', 'i', 'd']]

/-- The early/late/mid window applied to a decade base year, exactly the
if/elif/else of the source. -/
def periodRange (p : Period) (base : Nat) : Nat × Nat :=
  match p with
  | .early => (base, base + 4)
  | .late => (base + 5, base + 9)
  | .mid => (base + 3, base + 6)

/-- Pattern 4: `\b(early|late|mid)\s+(\d{2})s\b`. -/
def tryTemporal (prev : Option Char) (l : List Char) :
    Option ((Period × Nat) × List Char) :=
  if wb prev then
    match firstKW periodKWs l with
    | some (kw, r1) =>
      if (r1.takeWhile isSpc).isEmpty then none
      else
        match r1.dropWhile isSpc with
        | c1 :: c2 :: c3 :: r =>
          if isDig c1 ∧ isDig c2 ∧ lowerAscii c3 = 's' ∧ bdryAfterWord r then
            some ((periodOf kw, 10 * digVal c1 + digVal c2), r)
          else none
        | _ => none
    | none => none
  else none

/-- Pattern 5: `\b(early|late|mid)\s+((?:19|20)\d{2})s?\b`. -/
def tryTemporalFull (prev : Option Char) (l : List Char) :
    Option ((Period × Nat) × List Char) :=
  if wb prev then
    match firstKW periodKWs l with
    | some (kw, r1) =>
      if (r1.takeWhile isSpc).isEmpty then none
      else
        match year4 (r1.dropWhile isSpc) with
        | some (y, r2) =>
          match r2 with
          | c :: r3 =>
            if lowerAscii c = 's' then
              if bdryAfterWord r3 then some ((periodOf kw, y), r3) else none
            else if bdryAfterWord r2 then some ((periodOf kw, y), r2) else none
          | [] => some ((periodOf kw, y), [])
        | none => none
    | none => none
  else none

/-- Decade base year: `1900+NN` when `NN ≥ 20`, else `2000+NN`. -/
def decadeBase (d : Nat) : Nat := if 20 ≤ d then 1900 + d else 2000 + d

/-- The five-pattern cascade of `extract_year_range`: each pattern is
searched on the original text, only the first success contributes, the
fired pattern's matches are removed from the residual, and the residual is
whitespace-normalized at the end. -/
def extractYear (t : List Char) : Option Nat × Option Nat × List Char :=
  match scanFirst tryYearRange none t with
  | some (y1, y2) => (some y1, some y2, finClean (stripWS (subAll tryYearRange t)))
  | none =>
    match scanFirst trySingleYear none t with
    | some y => (some y, some y, finClean (stripWS (subAll trySingleYear t)))
    | none =>
      match scanFirst tryDecade none t with
      | some d =>
        let base := decadeBase d
        (some base, some (base + 9), finClean (stripWS (subAll tryDecade t)))
      | none =>
        match scanFirst tryTemporal none t with
        | some (p, d) =>
          let r := periodRange p (decadeBase d)
          (some r.1, some r.2, finClean (stripWS (subAll tryTemporal t)))
        | none =>
          match scanFirst tryTemporalFull none t with
          | some (p, y) =>
            let r := periodRange p (y / 10 * 10)
            (some r.1, some r.2, finClean (stripWS (subAll tryTemporalFull t)))
          | none => (none, none, finClean t)

/-! ## Genre extraction (`RegexParser.extract_genre`) -/

/-- The canonical genre vocabulary, in the source's scan order. -/
def genreTokens : List (List Char) :=
  ["adventure".data, "animation".data, "children".data, "comedy".data, "crime".data,
   "documentary".data, "drama".data, "family".data, "fantasy".data, "film-noir".data,
   "history".data, "horror".data, "imax".data, "music".data, "musical".data,
   "mystery".data, "romance".data, "sci-fi".data, "science fiction".data,
   "thriller".data, "tv movie".data, "war".data, "western".data]

/-- The synonym table, in the source dict's insertion order (the duplicated
`scifi` key keeps its first position). -/
def genreSynonyms : List (List Char × List Char) :=
  [("rom-com".data, "romance".data), ("romcom".data, "romance".data),
   ("romantic".data, "romance".data), ("sci-fi".data, "sci-fi".data),
   ("science fiction".data, "science fiction".data), ("scifi".data, "sci-fi".data),
   ("action".data, "action".data), ("comedy".data, "comedy".data),
   ("drama".data, "drama".data), ("horror".data, "horror".data),
   ("thriller".data, "thriller".data), ("war".data, "war".data),
   ("western".data, "western".data), ("fantasy".data, "fantasy".data),
   ("mystery".data, "mystery".data), ("crime".data, "crime".data),
   ("adventure".data, "adventure".data), ("animation".data, "animation".data),
   ("family".data, "family".data), ("musical".data, "musical".data),
   ("documentary".data, "documentary".data)]

/-- Whole-word occurrence of one (lowercase) token:
`\b<escaped token>\b`. -/
def tryToken (tok : List Char) (prev : Option Char) (l : List Char) :
    Option (Unit × List Char) :=
  if wb prev then
    match dropLitCI tok l with
    | some r => if bdryAfterWord r then some ((), r) else none
    | none => none
  else none

/-- Case-insensitive whole-word search for a token anywhere in the text
(the source searches `query_text.lower()`). -/
def gMatch (tok : List Char) (t : List Char) : Bool :=
  (scanFirst (tryToken tok) none (t.map lowerAscii)).isSome

/-- The canonical-vocabulary scan: first token in scan order that occurs. -/
def firstGenreTok (t : List Char) : Option (List Char) :=
  genreTokens.findSome? (fun tok => if gMatch tok t then some tok else none)

/-- The synonym fallback scan, returning matched synonym and its canonical
value. -/
def firstSynonym (t : List Char) : Option (List Char × List Char) :=
  genreSynonyms.findSome? (fun pr => if gMatch pr.1 t then some pr else none)

/-- `extract_genre`: canonical tokens first, synonyms only when no
canonical token matched; the matched word is removed from the residual. -/
def extractGenre (t : List Char) : Option (List Char) × List Char :=
  match firstGenreTok t with
  | some tok => (some tok, finClean (stripWS (subAll (tryToken tok) t)))
  | none =>
    match firstSynonym t with
    | some (syn, canon) => (some canon, finClean (stripWS (subAll (tryToken syn) t)))
    | none => (none, finClean t)

/-! ## Rating extraction (`RegexParser.extract_rating`) -/

/-- Parse `(\d+(?:\.\d+)?)\b` with the regex engine's backtracking: the
fractional part is taken greedily and kept only when the trailing word
boundary holds after it; otherwise the integer part alone matches (the
following `.` gives the boundary). -/
def numB (l : List Char) : Option (ℚ × List Char) :=
  let ds := l.takeWhile isDig
  let r1 := l.dropWhile isDig
  if ds.isEmpty then none
  else
    match r1 with
    | '.' :: r2 =>
      let fs := r2.takeWhile isDig
      let r3 := r2.dropWhile isDig
      if fs.isEmpty then some ((natOf ds : ℚ), r1)
      else if bdryAfterWord r3 then some (ratOf ds fs, r3)
      else some ((natOf ds : ℚ), r1)
    | _ => if bdryAfterWord r1 then some ((natOf ds : ℚ), r1) else none

/-- Pattern 1: `\b(rated|rating|score)\s+(\d+(?:\.\d+)?)\b`. -/
def tryRated (prev : Option Char) (l : List Char) : Option (ℚ × List Char) :=
  if wb prev then
    match firstKW ["rated".data, "rating".data, "score".data] l with
    | some (_, r1) =>
      if (r1.takeWhile isSpc).isEmpty then none
      else numB (r1.dropWhile isSpc)
    | none => none
  else none

/-- Pattern 2: `\b(above|below|over|under|more than|less than)\s+num\b`.
The Boolean capture is true for the lower-bound keywords. -/
def tryComparison (prev : Option Char) (l : List Char) :
    Option ((Bool × ℚ) × List Char) :=
  if wb prev then
    match firstKW ["above".data, "below".data, "over".data, "under".data,
        "more than".data, "less than".data] l with
    | some (kw, r1) =>
      if (r1.takeWhile isSpc).isEmpty then none
      else
        match numB (r1.dropWhile isSpc) with
        | some (v, r2) =>
          some (((kw == "above".data) || (kw == "over".data) || (kw == "more than".data), v), r2)
        | none => none
    | none => none
  else none

/-- The optional `=` after `<` or `>`. -/
def eqTail : List Char → List Char
  | '=' :: r => r
  | r => r

/-- The `\s*\+` tail of the `N+` alternative. -/
def plusAfter (r : List Char) : Option (List Char) :=
  match r.dropWhile isSpc with
  | '+' :: rr => some rr
  | _ => none

/-- The `(\d+(?:\.\d+)?)\s*\+` alternative of pattern 3 (no word
boundaries in this alternative). -/
def tryPlusNum (l : List Char) : Option ((Bool × ℚ) × List Char) :=
  let ds := l.takeWhile isDig
  let r1 := l.dropWhile isDig
  if ds.isEmpty then none
  else
    match r1 with
    | '.' :: r2 =>
      let fs := r2.takeWhile isDig
      let r3 := r2.dropWhile isDig
      if fs.isEmpty then none
      else
        match plusAfter r3 with
        | some rr => some ((true, ratOf ds fs), rr)
        | none => none
    | _ =>
      match plusAfter r1 with
      | some rr => some ((true, (natOf ds : ℚ)), rr)
      | none => none

/-- The `\b([<>]=?)\s*(\d+(?:\.\d+)?)\b` alternative of pattern 3:
`\b` before `<`/`>` requires the previous character to be a word
character. -/
def tryOpAngle (prev : Option Char) (l : List Char) :
    Option ((Bool × ℚ) × List Char) :=
  if wbNW prev then
    match l with
    | c :: r1 =>
      if c = '<' ∨ c = '>' then
        match numB ((eqTail r1).dropWhile isSpc) with
        | some (v, r4) => some (((c == '>'), v), r4)
        | none => none
      else none
    | [] => none
  else none

/-- Pattern 3: `\b([<>]=?)\s*(\d+(?:\.\d+)?)\b|(\d+(?:\.\d+)?)\s*\+`; the
Boolean capture is true for the lower-bound forms (`>`/`>=` and `N+`). -/
def tryOperator (prev : Option Char) (l : List Char) :
    Option ((Bool × ℚ) × List Char) :=
  match tryOpAngle prev l with
  | some x => some x
  | none => tryPlusNum l

/-- Pattern 4: `\b(highly|well|top|best)\s+rated\b`. -/
def tryHigh (prev : Option Char) (l : List Char) : Option (Unit × List Char) :=
  if wb prev then
    match firstKW ["highly".data, "well".data, "top".data, "best".data] l with
    | some (_, r1) =>
      if (r1.takeWhile isSpc).isEmpty then none
      else
        match dropLitCI "rated".data (r1.dropWhile isSpc) with
        | some r2 => if bdryAfterWord r2 then some ((), r2) else none
        | none => none
    | none => none
  else none

/-- The `\s*(?:rated|rating|score)?\b` tail of pattern 5, with the regex
engine's backtracking over the greedy `\s*` (the previous character is the
final digit of the second number). -/
def tailKW (r : List Char) : Option (List Char) :=
  let ws := r.takeWhile isSpc
  let r2 := r.dropWhile isSpc
  let fallback : Option (List Char) :=
    if ws.isEmpty then (if bdryAfterWord r then some r else none)
    else
      match r2 with
      | c :: _ => if isWordC c then some r2 else some r
      | [] => some r
  match firstKW ["rated".data, "rating".data, "score".data] r2 with
  | some (_, r3) => if bdryAfterWord r3 then some r3 else fallback
  | none => fallback

/-- Second number of pattern 5 followed by the `tailKW` tail, with the
same fraction backtracking as `numB`. -/
def num2Tail (rc : List Char) : Option (ℚ × List Char) :=
  let es := rc.takeWhile isDig
  let s1 := rc.dropWhile isDig
  if es.isEmpty then none
  else
    match s1 with
    | '.' :: s2 =>
      let gs := s2.takeWhile isDig
      let s3 := s2.dropWhile isDig
      if gs.isEmpty then (tailKW s1).map (fun rr => ((natOf es : ℚ), rr))
      else
        match tailKW s3 with
        | some rr => some (ratOf es gs, rr)
        | none => (tailKW s1).map (fun rr => ((natOf es : ℚ), rr))
    | _ => (tailKW s1).map (fun rr => ((natOf es : ℚ), rr))

/-- Separator and second number of pattern 5, given the first captured
value. -/
def rangeCont (v1 : ℚ) (r : List Char) : Option ((ℚ × ℚ) × List Char) :=
  match rangeSep (r.dropWhile isSpc) with
  | some rb => (num2Tail (rb.dropWhile isSpc)).map (fun p => ((v1, p.1), p.2))
  | none => none

/-- Pattern 5: `\b(\d+(?:\.\d+)?)\s*(?:-|to)\s*(\d+(?:\.\d+)?)\s*(?:rated|rating|score)?\b`. -/
def tryRatingRange (prev : Option Char) (l : List Char) :
    Option ((ℚ × ℚ) × List Char) :=
  if wb prev then
    let ds := l.takeWhile isDig
    let r1 := l.dropWhile isDig
    if ds.isEmpty then none
    else
      match r1 with
      | '.' :: r2 =>
        let fs := r2.takeWhile isDig
        let r3 := r2.dropWhile isDig
        if fs.isEmpty then rangeCont (natOf ds : ℚ) r1
        else
          match rangeCont (ratOf ds fs) r3 with
          | some x => some x
          | none => rangeCont (natOf ds : ℚ) r1
      | _ => rangeCont (natOf ds : ℚ) r1
  else none

/-- The five-pattern cascade of `extract_rating`; each pattern is searched
on the method's input text, only the first success contributes. -/
def extractRating (t : List Char) : Option ℚ × Option ℚ × List Char :=
  match scanFirst tryRated none t with
  | some v => (some v, some v, finClean (stripWS (subAll tryRated t)))
  | none =>
    match scanFirst tryComparison none t with
    | some (lo, v) =>
      let c := finClean (stripWS (subAll tryComparison t))
      if lo then (some v, some 10, c) else (some 0, some v, c)
    | none =>
      match scanFirst tryOperator none t with
      | some (lo, v) =>
        let c := finClean (stripWS (subAll tryOperator t))
        if lo then (some v, some 10, c) else (some 0, some v, c)
      | none =>
        match scanFirst tryHigh none t with
        | some _ => (some 7, some 10, finClean (stripWS (subAll tryHigh t)))
        | none =>
          match scanFirst tryRatingRange none t with
          | some (a, b) => (some a, some b, finClean (stripWS (subAll tryRatingRange t)))
          | none => (none, none, finClean t)

/-! ## The full filter pipeline (`RegexParser.parse`, filters part) -/

structure Filters where
  year_min : Option Nat
  year_max : Option Nat
  genre : Option (List Char)
  rating_min : Option ℚ
  rating_max : Option ℚ
deriving DecidableEq

/-- The residual text after year extraction. -/
def residAfterYear (t : List Char) : List Char := (extractYear t).2.2

/-- The residual text after year and genre extraction. -/
def residAfterGenre (t : List Char) : List Char := (extractGenre (residAfterYear t)).2

/-- The filter part of `parse`: year, then genre, then rating, each pass
consuming the previous residual. -/
def parseFilters (t : List Char) : Filters :=
  let y := extractYear t
  let g := extractGenre y.2.2
  let r := extractRating g.2
  ⟨y.1, y.2.1, g.1, r.1, r.2.1⟩

inductive FVal where
  | yearv (v : Option Nat)
  | genrev (g : Option (List Char))
  | ratingv (r : Option ℚ)
deriving DecidableEq

/-- The `filters` dictionary literal returned by `parse`, as an ordered
key-value list. -/
def parseFiltersDict (t : List Char) : List (String × FVal) :=
  let f := parseFilters t
  [("year_min", .yearv f.year_min), ("year_max", .yearv f.year_max),
   ("genre", .genrev f.genre), ("rating_min", .ratingv f.rating_min),
   ("rating_max", .ratingv f.rating_max)]

/-! ## Fusion engine (`RRFFusion.fuse`) -/

/-- Result provenance, the source strings `'bm25'` (the lexical channel),
`'semantic'`, `'both'`. -/
inductive Src where
  | bm25
  | semantic
  | both
deriving DecidableEq

/-- A channel result: document ids with channel scores, in the mapping's
iteration (insertion) order. -/
abbrev ChannelResult := List (Nat × ℚ)

/-- A fused entry `(doc_id, score, sources)`. -/
abbrev Entry := Nat × ℚ × Src

/-- The raw weighted reciprocal-rank score of one document: rank is the
position in the channel's id list, `100` when absent (the absent rank is
computed but multiplied out by the absence branch), and an absent channel
contributes `0`.  Division is the total field division of `ℚ`; the
error-aware `rawScoreE` below returns `none` exactly where the source
raises `ZeroDivisionError`, and agrees with this definition whenever
`0 < k`. -/
def rawScore (k wB wS : ℚ) (b s : ChannelResult) (d : Nat) : ℚ :=
  let bids := b.map Prod.fst
  let sids := s.map Prod.fst
  let rankB : Nat := if bids.contains d then bids.indexOf d else 100
  let rankS : Nat := if sids.contains d then sids.indexOf d else 100
  (if bids.contains d then wB * (1 / (k + (rankB : ℚ))) else 0) +
  (if sids.contains d then wS * (1 / (k + (rankS : ℚ))) else 0)

/-- Provenance tracking: `both` / `bm25` / `semantic`. -/
def srcOf (b s : ChannelResult) (d : Nat) : Src :=
  if (b.map Prod.fst).contains d && (s.map Prod.fst).contains d then .both
  else if (b.map Prod.fst).contains d then .bm25
  else .semantic

/-- Maximum of a nonempty score list (`max(final_scores.values())`). -/
def maxD : List ℚ → ℚ
  | [] => 0
  | v :: vs => vs.foldl max v

/-- Minimum of a nonempty score list. -/
def minD : List ℚ → ℚ
  | [] => 0
  | v :: vs => vs.foldl min v

/-- Stable descending insertion on entries: an element goes in front of
the first existing entry whose score is not larger, so equal scores keep
their original relative order, exactly like Python's stable
`sorted(..., key=score, reverse=True)`. -/
def insD (x : Entry) : List Entry → List Entry
  | [] => [x]
  | y :: ys => if y.2.1 ≤ x.2.1 then x :: y :: ys else y :: insD x ys

/-- Stable descending sort by score. -/
def sortD : List Entry → List Entry
  | [] => []
  | x :: xs => insD x (sortD xs)

/-- `RRFFusion.fuse`, with the iteration order of the id set
`set(bm25) | set(semantic)` passed explicitly as `order` (Python does not
specify it). Empty id set returns `[]`; otherwise raw scores are min-max
normalized — all `1.0` when max equals min — and the entries are sorted by
normalized score, descending, stably. -/
def fuse (k wB wS : ℚ) (order : List Nat) (b s : ChannelResult) : List Entry :=
  match order with
  | [] => []
  | d0 :: ds =>
    let scored := (d0 :: ds).map (fun d => (d, rawScore k wB wS b s d))
    let mx := maxD (scored.map Prod.snd)
    let mn := minD (scored.map Prod.snd)
    if mx = mn then sortD (scored.map (fun p => (p.1, (1 : ℚ), srcOf b s p.1)))
    else sortD (scored.map (fun p => (p.1, (p.2 - mn) / (mx - mn), srcOf b s p.1)))

/-- The orders in which Python may iterate the id set: any duplicate-free
enumeration of exactly the ids present in either channel. -/
def validOrder (order : List Nat) (b s : ChannelResult) : Prop :=
  order.Nodup ∧ ∀ d, d ∈ order ↔ d ∈ b.map Prod.fst ∨ d ∈ s.map Prod.fst

/-! ### Error-aware fusion

`rawScore` and `fuse` use the total field division of `ℚ`, under which
`1/(k + rank)` is `0` when the denominator vanishes; the source instead
raises `ZeroDivisionError` there.  The following variants model that error
path explicitly: `none` is the raised exception.  Whenever `0 < k` — every
reciprocal-rank denominator is then positive — the two semantics agree
(`fuseE_pos` below). -/

/-- Raw weighted reciprocal-rank score with the source's error path: the
division `1 / (k + rank)` is evaluated only for a channel containing the
document, and a vanishing denominator raises (`none`). -/
def rawScoreE (k wB wS : ℚ) (b s : ChannelResult) (d : Nat) : Option ℚ :=
  let bids := b.map Prod.fst
  let sids := s.map Prod.fst
  let rankB : Nat := if bids.contains d then bids.indexOf d else 100
  let rankS : Nat := if sids.contains d then sids.indexOf d else 100
  if bids.contains d ∧ k + (rankB : ℚ) = 0 then none
  else if sids.contains d ∧ k + (rankS : ℚ) = 0 then none
  else
    some ((if bids.contains d then wB * (1 / (k + (rankB : ℚ))) else 0) +
      (if sids.contains d then wS * (1 / (k + (rankS : ℚ))) else 0))

/-- The scoring loop over the id set in iteration order; the first raised
division error aborts the whole call. -/
def scoredE (k wB wS : ℚ) (b s : ChannelResult) : List Nat → Option (List (Nat × ℚ))
  | [] => some []
  | d :: ds =>
    match rawScoreE k wB wS b s d with
    | none => none
    | some q =>
      match scoredE k wB wS b s ds with
      | none => none
      | some rest => some ((d, q) :: rest)

/-- `RRFFusion.fuse` with the source's error path: `none` models a
`ZeroDivisionError` escaping the call. -/
def fuseE (k wB wS : ℚ) (order : List Nat) (b s : ChannelResult) : Option (List Entry) :=
  match scoredE k wB wS b s order with
  | none => none
  | some [] => some []
  | some (p :: ps) =>
    let mx := maxD ((p :: ps).map Prod.snd)
    let mn := minD ((p :: ps).map Prod.snd)
    if mx = mn then
      some (sortD ((p :: ps).map (fun p => (p.1, (1 : ℚ), srcOf b s p.1))))
    else
      some (sortD ((p :: ps).map (fun p => (p.1, (p.2 - mn) / (mx - mn), srcOf b s p.1))))

/-! ### The spec-side rank definition for claim C1 -/

/-- Stable descending insertion on channel pairs by score. -/
def insP (x : Nat × ℚ) : List (Nat × ℚ) → List (Nat × ℚ)
  | [] => [x]
  | y :: ys => if y.2 ≤ x.2 then x :: y :: ys else y :: insP x ys

/-- Stable descending sort of a channel result by score. -/
def sortPairs : List (Nat × ℚ) → List (Nat × ℚ)
  | [] => []
  | x :: xs => insP x (sortPairs xs)

/-- Modelled from the spec's words for C1: the document's 0-based position
in the channel's ids ordered by descending channel score. -/
def specRank (r : ChannelResult) (d : Nat) : Nat :=
  ((sortPairs r).map Prod.fst).indexOf d

/-- Modelled from the spec's words for C1: raw fused score
`lexical_weight * 1/(k + rankL) + semantic_weight * 1/(k + rankS)` with
descending-score ranks and `0` for an absent channel. -/
def specRawScore (k wB wS : ℚ) (b s : ChannelResult) (d : Nat) : ℚ :=
  (if (b.map Prod.fst).contains d then wB * (1 / (k + (specRank b d : ℚ))) else 0) +
  (if (s.map Prod.fst).contains d then wS * (1 / (k + (specRank s d : ℚ))) else 0)

/-- Descending sortedness of a channel result by score, decidably. -/
def descPairs : List (Nat × ℚ) → Bool
  | [] => true
  | [_] => true
  | x :: y :: r => decide (y.2 ≤ x.2) && descPairs (y :: r)

/-! ## Strategy orchestration (`SearchEngine.search`) -/

/-- What the extractor hands the engine: residual search term and filters. -/
structure ParsedQuery where
  term : List Char
  filters : Filters

/-- Arguments of a lexical (bm25) collaborator invocation:
`bm25_indexer.search(cleaned_text, filters, ...)`. -/
structure BM25Call where
  text : List Char
  filters : Filters
deriving DecidableEq

/-- Arguments of a semantic collaborator invocation:
`semantic_indexer.search(full_query_text, applied_filters, ...)` where
`applied_filters` is dropped unless `semantic.apply_filters` is set. -/
structure SemCall where
  text : List Char
  filters : Option Filters
deriving DecidableEq

/-- The collaborator invocations `SearchEngine.search` makes for one query,
by strategy string: `'bm25'` parses and queries the lexical channel with the
residual term plus filters; `'semantic'` extracts filters only and queries
the semantic channel with the original query text; `'fusion'` does both;
any other strategy raises (`none`). The parsers are abstract (regex- or
LLM-backed per configuration). -/
def searchCalls (strategy : String) (pB pS : List Char → ParsedQuery)
    (applySem : Bool) (q : List Char) :
    Option (Option BM25Call × Option SemCall) :=
  if strategy = "bm25" then
    some (some ⟨(pB q).term, (pB q).filters⟩, none)
  else if strategy = "semantic" then
    some (none, some ⟨q, if applySem then some (pS q).filters else none⟩)
  else if strategy = "fusion" then
    some (some ⟨(pB q).term, (pB q).filters⟩,
      some ⟨q, if applySem then some (pS q).filters else none⟩)
  else none

/-! ## Lemmas about the scanners -/

theorem scanFirst_ex {α : Type} {tryA : Option Char → List Char → Option (α × List Char)}
    {a : α} :
    ∀ {prev : Option Char} {l : List Char}, scanFirst tryA prev l = some a →
      ∃ p r rest, tryA p r = some (a, rest) := by
  intro prev l
  induction l generalizing prev with
  | nil =>
    intro h
    simp only [scanFirst] at h
    cases htry : tryA prev [] with
    | none => rw [htry] at h; exact Option.noConfusion h
    | some pr =>
      rw [htry] at h
      obtain ⟨a1, rest⟩ := pr
      have h2 : a1 = a := Option.some_inj.mp h
      exact ⟨prev, [], rest, by rw [htry, h2]⟩
  | cons c r ih =>
    intro h
    simp only [scanFirst] at h
    cases htry : tryA prev (c :: r) with
    | none => rw [htry] at h; exact ih h
    | some pr =>
      rw [htry] at h
      obtain ⟨a1, rest⟩ := pr
      simp only [Option.some_inj] at h
      exact ⟨prev, c :: r, rest, by rw [htry, h]⟩

theorem ratOf_nonneg (ds fs : List Char) : (0 : ℚ) ≤ ratOf ds fs := by
  unfold ratOf; positivity

theorem natOf_cast_nonneg (ds : List Char) : (0 : ℚ) ≤ (natOf ds : ℚ) := by positivity

theorem numB_nonneg {l : List Char} {v : ℚ} {r : List Char}
    (h : numB l = some (v, r)) : 0 ≤ v := by
  unfold numB at h
  dsimp only at h
  split at h
  · exact absurd h (by simp)
  · split at h
    · split at h
      · obtain ⟨h1, -⟩ := Prod.mk.injEq .. ▸ Option.some_inj.mp h
        exact h1 ▸ natOf_cast_nonneg _
      · split at h
        · obtain ⟨h1, -⟩ := Prod.mk.injEq .. ▸ Option.some_inj.mp h
          exact h1 ▸ ratOf_nonneg _ _
        · obtain ⟨h1, -⟩ := Prod.mk.injEq .. ▸ Option.some_inj.mp h
          exact h1 ▸ natOf_cast_nonneg _
    · split at h
      · obtain ⟨h1, -⟩ := Prod.mk.injEq .. ▸ Option.some_inj.mp h
        exact h1 ▸ natOf_cast_nonneg _
      · exact absurd h (by simp)

theorem tryComparison_nonneg {prev : Option Char} {l : List Char} {p : Bool × ℚ}
    {r : List Char} (h : tryComparison prev l = some (p, r)) : 0 ≤ p.2 := by
  unfold tryComparison at h
  split at h
  · split at h
    · split at h
      · exact absurd h (by simp)
      · split at h
        · rename_i heq
          obtain ⟨h1, -⟩ := Prod.mk.injEq .. ▸ Option.some_inj.mp h
          have h2 : p.2 = _ := congrArg Prod.snd h1.symm
          exact h2 ▸ numB_nonneg heq
        · exact absurd h (by simp)
    · exact absurd h (by simp)
  · exact absurd h (by simp)

theorem tryPlusNum_nonneg {l : List Char} {p : Bool × ℚ} {r : List Char}
    (h : tryPlusNum l = some (p, r)) : 0 ≤ p.2 := by
  unfold tryPlusNum at h
  dsimp only at h
  split at h
  · exact absurd h (by simp)
  · split at h
    · split at h
      · exact absurd h (by simp)
      · split at h
        · obtain ⟨h1, -⟩ := Prod.mk.injEq .. ▸ Option.some_inj.mp h
          have h2 : p.2 = _ := congrArg Prod.snd h1.symm
          exact h2 ▸ ratOf_nonneg _ _
        · exact absurd h (by simp)
    · split at h
      · obtain ⟨h1, -⟩ := Prod.mk.injEq .. ▸ Option.some_inj.mp h
        have h2 : p.2 = _ := congrArg Prod.snd h1.symm
        exact h2 ▸ natOf_cast_nonneg _
      · exact absurd h (by simp)

theorem tryOpAngle_nonneg {prev : Option Char} {l : List Char} {p : Bool × ℚ}
    {r : List Char} (h : tryOpAngle prev l = some (p, r)) : 0 ≤ p.2 := by
  unfold tryOpAngle at h
  split at h
  · split at h
    · split at h
      · split at h
        · rename_i heq
          obtain ⟨h1, -⟩ := Prod.mk.injEq .. ▸ Option.some_inj.mp h
          have h2 : p.2 = _ := congrArg Prod.snd h1.symm
          exact h2 ▸ numB_nonneg heq
        · exact absurd h (by simp)
      · exact absurd h (by simp)
    · exact absurd h (by simp)
  · exact absurd h (by simp)

theorem tryOperator_nonneg {prev : Option Char} {l : List Char} {p : Bool × ℚ}
    {r : List Char} (h : tryOperator prev l = some (p, r)) : 0 ≤ p.2 := by
  unfold tryOperator at h
  split at h
  · rename_i heq
    exact tryOpAngle_nonneg (Option.some_inj.mp h ▸ heq)
  · exact tryPlusNum_nonneg h
theorem extractYear_bounds (t : List Char)
    (h : ∀ p : Nat × Nat, scanFirst tryYearRange none t = some p → p.1 ≤ p.2) :
    ∀ a b, (extractYear t).1 = some a → (extractYear t).2.1 = some b → a ≤ b := by
  intro a b ha hb
  unfold extractYear at ha hb
  cases h1 : scanFirst tryYearRange none t with
  | some p =>
    obtain ⟨y1, y2⟩ := p
    rw [h1] at ha hb
    have ha2 : y1 = a := Option.some_inj.mp ha
    have hb2 : y2 = b := Option.some_inj.mp hb
    have := h (y1, y2) h1
    omega
  | none =>
    rw [h1] at ha hb
    cases h2 : scanFirst trySingleYear none t with
    | some y =>
      rw [h2] at ha hb
      have ha2 : y = a := Option.some_inj.mp ha
      have hb2 : y = b := Option.some_inj.mp hb
      omega
    | none =>
      rw [h2] at ha hb
      cases h3 : scanFirst tryDecade none t with
      | some d =>
        rw [h3] at ha hb
        have ha2 : decadeBase d = a := Option.some_inj.mp ha
        have hb2 : decadeBase d + 9 = b := Option.some_inj.mp hb
        omega
      | none =>
        rw [h3] at ha hb
        cases h4 : scanFirst tryTemporal none t with
        | some pd =>
          obtain ⟨p, d⟩ := pd
          rw [h4] at ha hb
          cases p with
          | early =>
            have ha2 : decadeBase d = a := Option.some_inj.mp ha
            have hb2 : decadeBase d + 4 = b := Option.some_inj.mp hb
            omega
          | late =>
            have ha2 : decadeBase d + 5 = a := Option.some_inj.mp ha
            have hb2 : decadeBase d + 9 = b := Option.some_inj.mp hb
            omega
          | mid =>
            have ha2 : decadeBase d + 3 = a := Option.some_inj.mp ha
            have hb2 : decadeBase d + 6 = b := Option.some_inj.mp hb
            omega
        | none =>
          rw [h4] at ha hb
          cases h5 : scanFirst tryTemporalFull none t with
          | some py =>
            obtain ⟨p, y⟩ := py
            rw [h5] at ha hb
            cases p with
            | early =>
              have ha2 : y / 10 * 10 = a := Option.some_inj.mp ha
              have hb2 : y / 10 * 10 + 4 = b := Option.some_inj.mp hb
              omega
            | late =>
              have ha2 : y / 10 * 10 + 5 = a := Option.some_inj.mp ha
              have hb2 : y / 10 * 10 + 9 = b := Option.some_inj.mp hb
              omega
            | mid =>
              have ha2 : y / 10 * 10 + 3 = a := Option.some_inj.mp ha
              have hb2 : y / 10 * 10 + 6 = b := Option.some_inj.mp hb
              omega
          | none =>
            rw [h5] at ha hb
            exact Option.noConfusion ha

theorem extractRating_bounds (u : List Char)
    (hcmp : ∀ p : Bool × ℚ, scanFirst tryComparison none u = some p → p.1 = true → p.2 ≤ 10)
    (hop : ∀ p : Bool × ℚ, scanFirst tryOperator none u = some p → p.1 = true → p.2 ≤ 10)
    (hrr : ∀ p : ℚ × ℚ, scanFirst tryRatingRange none u = some p → p.1 ≤ p.2) :
    ∀ a b, (extractRating u).1 = some a → (extractRating u).2.1 = some b → a ≤ b := by
  intro a b ha hb
  unfold extractRating at ha hb
  cases h1 : scanFirst tryRated none u with
  | some v =>
    rw [h1] at ha hb
    have ha2 : v = a := Option.some_inj.mp ha
    have hb2 : v = b := Option.some_inj.mp hb
    rw [← ha2, ← hb2]
  | none =>
    rw [h1] at ha hb
    cases h2 : scanFirst tryComparison none u with
    | some p =>
      obtain ⟨lo, v⟩ := p
      rw [h2] at ha hb
      cases lo with
      | true =>
        have ha2 : v = a := Option.some_inj.mp ha
        have hb2 : (10 : ℚ) = b := Option.some_inj.mp hb
        rw [← ha2, ← hb2]
        exact hcmp (true, v) h2 rfl
      | false =>
        have ha2 : (0 : ℚ) = a := Option.some_inj.mp ha
        have hb2 : v = b := Option.some_inj.mp hb
        rw [← ha2, ← hb2]
        obtain ⟨pp, rr, rest, htry⟩ := scanFirst_ex h2
        exact tryComparison_nonneg htry
    | none =>
      rw [h2] at ha hb
      cases h3 : scanFirst tryOperator none u with
      | some p =>
        obtain ⟨lo, v⟩ := p
        rw [h3] at ha hb
        cases lo with
        | true =>
          have ha2 : v = a := Option.some_inj.mp ha
          have hb2 : (10 : ℚ) = b := Option.some_inj.mp hb
          rw [← ha2, ← hb2]
          exact hop (true, v) h3 rfl
        | false =>
          have ha2 : (0 : ℚ) = a := Option.some_inj.mp ha
          have hb2 : v = b := Option.some_inj.mp hb
          rw [← ha2, ← hb2]
          obtain ⟨pp, rr, rest, htry⟩ := scanFirst_ex h3
          exact tryOperator_nonneg htry
      | none =>
        rw [h3] at ha hb
        cases h4 : scanFirst tryHigh none u with
        | some x =>
          rw [h4] at ha hb
          have ha2 : (7 : ℚ) = a := Option.some_inj.mp ha
          have hb2 : (10 : ℚ) = b := Option.some_inj.mp hb
          rw [← ha2, ← hb2]
          norm_num
        | none =>
          rw [h4] at ha hb
          cases h5 : scanFirst tryRatingRange none u with
          | some p =>
            obtain ⟨x, y⟩ := p
            rw [h5] at ha hb
            have ha2 : x = a := Option.some_inj.mp ha
            have hb2 : y = b := Option.some_inj.mp hb
            rw [← ha2, ← hb2]
            exact hrr (x, y) h5
          | none =>
            rw [h5] at ha hb
            exact Option.noConfusion ha

/-! ## Claim C2 -/

/-- Side condition for the explicit year-range pattern: the two captured
years are written in ascending order. -/
def yrOrdered (t : List Char) : Bool :=
  match scanFirst tryYearRange none t with
  | some p => decide (p.1 ≤ p.2)
  | none => true

/-- Side condition for the comparison pattern: a lower-bound keyword is
followed by a value within the 10-point scale. -/
def cmpBounded (t : List Char) : Bool :=
  match scanFirst tryComparison none t with
  | some (true, v) => decide (v ≤ 10)
  | _ => true

/-- Side condition for the operator pattern: a lower-bound form uses a
value within the 10-point scale. -/
def opBounded (t : List Char) : Bool :=
  match scanFirst tryOperator none t with
  | some (true, v) => decide (v ≤ 10)
  | _ => true

/-- Side condition for the rating-range pattern: the two captured values
are written in ascending order. -/
def rrOrdered (t : List Char) : Bool :=
  match scanFirst tryRatingRange none t with
  | some p => decide (p.1 ≤ p.2)
  | none => true

/-- C2 (amended): the extractor's bound invariant `year_min ≤ year_max`
and `rating_min ≤ rating_max` holds for every input in which an explicit
year range is written ascending, an explicit rating range is written
ascending, and lower-bound rating comparisons (`above`/`over`/`more
than`/`>`/`>=`/`N+`) use values at most 10; the remaining patterns
establish the invariant unconditionally. -/
theorem extractor_bounds_invariant (t : List Char)
    (hy : yrOrdered t = true)
    (hc : cmpBounded (residAfterGenre t) = true)
    (ho : opBounded (residAfterGenre t) = true)
    (hr : rrOrdered (residAfterGenre t) = true) :
    (∀ a b, (parseFilters t).year_min = some a →
      (parseFilters t).year_max = some b → a ≤ b) ∧
    (∀ a b, (parseFilters t).rating_min = some a →
      (parseFilters t).rating_max = some b → a ≤ b) := by
  constructor
  · intro a b ha hb
    refine extractYear_bounds t ?_ a b ha hb
    intro p hp
    unfold yrOrdered at hy
    rw [hp] at hy
    exact of_decide_eq_true hy
  · intro a b ha hb
    refine extractRating_bounds (residAfterGenre t) ?_ ?_ ?_ a b ha hb
    · intro p hp hlo
      unfold cmpBounded at hc
      rw [hp] at hc
      obtain ⟨lo, v⟩ := p
      cases lo with
      | true => exact of_decide_eq_true hc
      | false => exact absurd hlo (by simp)
    · intro p hp hlo
      unfold opBounded at ho
      rw [hp] at ho
      obtain ⟨lo, v⟩ := p
      cases lo with
      | true => exact of_decide_eq_true ho
      | false => exact absurd hlo (by simp)
    · intro p hp
      unfold rrOrdered at hr
      rw [hp] at hr
      exact of_decide_eq_true hr

/-- Witness for C2 at a concrete query satisfying the side conditions. -/
theorem extractor_bounds_invariant_witness :
    (yrOrdered "drama movies above 7".data = true ∧
      cmpBounded (residAfterGenre "drama movies above 7".data) = true ∧
      opBounded (residAfterGenre "drama movies above 7".data) = true ∧
      rrOrdered (residAfterGenre "drama movies above 7".data) = true) ∧
    (∀ a b, (parseFilters "drama movies above 7".data).year_min = some a →
      (parseFilters "drama movies above 7".data).year_max = some b → a ≤ b) ∧
    (∀ a b, (parseFilters "drama movies above 7".data).rating_min = some a →
      (parseFilters "drama movies above 7".data).rating_max = some b → a ≤ b) :=
  ⟨⟨by decide, by decide, by decide, by decide⟩,
    extractor_bounds_invariant _ (by decide) (by decide) (by decide) (by decide)⟩

/-- Counterexample to C2 as stated: a descending explicit year range and
an out-of-scale lower-bound rating both violate the invariant. -/
theorem extractor_bounds_cex :
    (parseFilters "2005 to 1999".data).year_min = some 2005 ∧
    (parseFilters "2005 to 1999".data).year_max = some 1999 ∧
    ¬(2005 ≤ 1999) ∧
    (parseFilters "above 15".data).rating_min = some 15 ∧
    (parseFilters "above 15".data).rating_max = some 10 ∧
    ¬((15 : ℚ) ≤ 10) := by
  refine ⟨by decide, by decide, by decide, by decide, by decide, by decide⟩

/-! ## Claim C3 -/

/-- C3 (amended): on `"war movies from late 80s with rating 7+"` the bare
decade pass fires on `"80s"` before the qualified-decade pass can see
`"late 80s"`, giving the full decade 1980-1989; the genre is `war`; and
the first rating pass fires on `"rating 7"`, giving
`rating_min = rating_max = 7.0` — exactly one rating pass fires. -/
theorem parse_late80s_actual :
    parseFilters "war movies from late 80s with rating 7+".data =
      ⟨some 1980, some 1989, some "war".data, some 7, some 7⟩ ∧
    scanFirst tryYearRange none "war movies from late 80s with rating 7+".data = none ∧
    scanFirst trySingleYear none "war movies from late 80s with rating 7+".data = none ∧
    scanFirst tryDecade none "war movies from late 80s with rating 7+".data = some 80 ∧
    scanFirst tryRated none
      (residAfterGenre "war movies from late 80s with rating 7+".data) = some 7 := by
  refine ⟨by decide, by decide, by decide, by decide, by decide⟩

/-- Counterexample to C3 as stated: the code returns year 1980-1989 (not
1985-1989) and rating bounds (7.0, 7.0) (not (7.0, 10.0)) on this query. -/
theorem parse_late80s_claim_cex :
    ¬((parseFilters "war movies from late 80s with rating 7+".data).year_min = some 1985 ∧
      (parseFilters "war movies from late 80s with rating 7+".data).year_max = some 1989 ∧
      (parseFilters "war movies from late 80s with rating 7+".data).rating_min = some 7 ∧
      (parseFilters "war movies from late 80s with rating 7+".data).rating_max = some 10) := by
  decide

/-! ## Claim C9 -/

/-- C9: no filter field is ever synthesized without its pattern matching:
when no year pattern matches the input, no genre token or synonym matches
the year residual, and no rating pattern matches the genre residual, every
filter field is absent. (The embedded `parseFilters` is a total function,
matching the source, whose regex and float conversions cannot raise on the
captured shapes.) -/
theorem parse_no_synthesis (t : List Char)
    (hy1 : scanFirst tryYearRange none t = none)
    (hy2 : scanFirst trySingleYear none t = none)
    (hy3 : scanFirst tryDecade none t = none)
    (hy4 : scanFirst tryTemporal none t = none)
    (hy5 : scanFirst tryTemporalFull none t = none)
    (hg1 : firstGenreTok (residAfterYear t) = none)
    (hg2 : firstSynonym (residAfterYear t) = none)
    (hr1 : scanFirst tryRated none (residAfterGenre t) = none)
    (hr2 : scanFirst tryComparison none (residAfterGenre t) = none)
    (hr3 : scanFirst tryOperator none (residAfterGenre t) = none)
    (hr4 : scanFirst tryHigh none (residAfterGenre t) = none)
    (hr5 : scanFirst tryRatingRange none (residAfterGenre t) = none) :
    parseFilters t = ⟨none, none, none, none, none⟩ := by
  have hY : (extractYear t).1 = none ∧ (extractYear t).2.1 = none := by
    unfold extractYear
    rw [hy1, hy2, hy3, hy4, hy5]
    exact ⟨rfl, rfl⟩
  have hG : (extractGenre (residAfterYear t)).1 = none := by
    unfold extractGenre
    rw [hg1, hg2]
  have hR : (extractRating (residAfterGenre t)).1 = none ∧
      (extractRating (residAfterGenre t)).2.1 = none := by
    unfold extractRating
    rw [hr1, hr2, hr3, hr4, hr5]
    exact ⟨rfl, rfl⟩
  show Filters.mk (extractYear t).1 (extractYear t).2.1
      (extractGenre (residAfterYear t)).1
      (extractRating (residAfterGenre t)).1
      (extractRating (residAfterGenre t)).2.1 = _
  rw [hY.1, hY.2, hG, hR.1, hR.2]

/-- Witness for C9 at a query matching no pattern. -/
theorem parse_no_synthesis_witness :
    (scanFirst tryYearRange none "hello world".data = none ∧
      firstGenreTok (residAfterYear "hello world".data) = none ∧
      scanFirst tryRatingRange none (residAfterGenre "hello world".data) = none) ∧
    parseFilters "hello world".data = ⟨none, none, none, none, none⟩ :=
  ⟨⟨by decide, by decide, by decide⟩,
    parse_no_synthesis _ (by decide) (by decide) (by decide) (by decide) (by decide)
      (by decide) (by decide) (by decide) (by decide) (by decide) (by decide) (by decide)⟩

/-! ## Claim C10 -/

/-- C10: the filters mapping returned by `parse` has exactly the five keys
`year_min`, `year_max`, `genre`, `rating_min`, `rating_max`, in this
order; in particular no `director` key is ever produced. -/
theorem parse_filters_keys (t : List Char) :
    (parseFiltersDict t).map Prod.fst =
      ["year_min", "year_max", "genre", "rating_min", "rating_max"] ∧
    "director" ∉ (parseFiltersDict t).map Prod.fst := by
  have h : (parseFiltersDict t).map Prod.fst =
      ["year_min", "year_max", "genre", "rating_min", "rating_max"] := by
    simp [parseFiltersDict]
  refine ⟨h, ?_⟩
  rw [h]
  decide

/-! ## Claim C5 -/

/-- A predicate-filtered `findSome?` returns the first element satisfying
the predicate. -/
theorem findSome_first_spec {α : Type} (d0 : α) (p : α → Bool) :
    ∀ (toks : List α) (tok : α), tok ∈ toks → p tok = true →
    ∃ i, i < toks.length ∧
      toks.findSome? (fun x => if p x then some x else none) = some (toks.getD i d0) ∧
      p (toks.getD i d0) = true ∧
      ∀ j, j < i → p (toks.getD j d0) = false := by
  intro toks
  induction toks with
  | nil => intro tok h1 _; cases h1
  | cons x xs ih =>
    intro tok h1 h2
    by_cases hx : p x = true
    · refine ⟨0, by simp, ?_, by simpa using hx, by omega⟩
      simp [List.findSome?_cons, hx]
    · have hmem : tok ∈ xs := by
        cases h1 with
        | head => exact absurd h2 hx
        | tail _ hm => exact hm
      obtain ⟨i, hi, heq, hpi, hfirst⟩ := ih tok hmem h2
      refine ⟨i + 1, by simpa using hi, ?_, by simpa using hpi, ?_⟩
      · simp only [List.findSome?_cons, hx, if_neg, Bool.false_eq_true, not_false_eq_true,
          List.getD_cons_succ]
        exact heq
      · intro j hj
        cases j with
        | zero => simpa using hx
        | succ j2 =>
          have := hfirst j2 (by omega)
          simpa using this

/-- C5 (amended): genre matching is whole-word against the canonical
vocabulary whose scan order begins with `adventure` — `action` is not a
canonical token and is reachable only through the synonym table; at most
one genre is extracted; the first canonical token in scan order that
occurs anywhere in the text wins; and the synonym table is consulted
exactly when no canonical token matches. -/
theorem genre_scan_order (t tok : List Char)
    (h1 : tok ∈ genreTokens) (h2 : gMatch tok t = true) :
    genreTokens.head? = some ("adventure".data) ∧
    "action".data ∉ genreTokens ∧
    (∃ i, i < genreTokens.length ∧
      (extractGenre t).1 = some (genreTokens.getD i []) ∧
      gMatch (genreTokens.getD i []) t = true ∧
      ∀ j, j < i → gMatch (genreTokens.getD j []) t = false) ∧
    (∀ u : List Char, firstGenreTok u = none →
      (extractGenre u).1 = (firstSynonym u).map Prod.snd) := by
  refine ⟨by decide, by decide, ?_, ?_⟩
  · obtain ⟨i, hi, heq, hpi, hfirst⟩ :=
      findSome_first_spec [] (fun x => gMatch x t) genreTokens tok h1 h2
    refine ⟨i, hi, ?_, hpi, hfirst⟩
    unfold extractGenre firstGenreTok
    rw [show genreTokens.findSome? (fun tk => if gMatch tk t then some tk else none) =
      some (genreTokens.getD i []) from heq]
  · intro u hu
    unfold extractGenre
    rw [hu]
    cases hs : firstSynonym u with
    | none => rfl
    | some pr => obtain ⟨syn, canon⟩ := pr; rfl

/-- Witness for C5 at a query containing both `action` and `western`. -/
theorem genre_scan_order_witness :
    ("western".data ∈ genreTokens ∧
      gMatch "western".data "action western".data = true) ∧
    ∃ i, i < genreTokens.length ∧
      (extractGenre "action western".data).1 = some (genreTokens.getD i []) ∧
      gMatch (genreTokens.getD i []) "action western".data = true ∧
      ∀ j, j < i → gMatch (genreTokens.getD j []) "action western".data = false :=
  ⟨⟨by decide, by decide⟩,
    (genre_scan_order "action western".data "western".data (by decide) (by decide)).2.2.1⟩

/-- Counterexample to C5 as stated: an input containing `action` and the
later vocabulary token `western` yields `western`, because `action` is
absent from the canonical scan list. -/
theorem genre_action_scan_cex :
    (extractGenre "action western".data).1 = some ("western".data) ∧
    some ("western".data) ≠ some ("action".data) := by
  refine ⟨by decide, by decide⟩

/-! ## Lemmas about the fusion engine -/

/-- Descending-by-score order on fused entries. -/
def descE (a b : Entry) : Prop := b.2.1 ≤ a.2.1

theorem mem_insD {x z : Entry} : ∀ {l : List Entry}, z ∈ insD x l ↔ z = x ∨ z ∈ l := by
  intro l
  induction l with
  | nil => simp [insD]
  | cons y ys ih =>
    simp only [insD]
    split
    · simp [List.mem_cons]
    · simp only [List.mem_cons, ih]
      tauto

theorem mem_sortD {z : Entry} : ∀ {l : List Entry}, z ∈ sortD l ↔ z ∈ l := by
  intro l
  induction l with
  | nil => simp [sortD]
  | cons x xs ih => simp [sortD, mem_insD, ih]

theorem pairwise_insD {x : Entry} : ∀ {l : List Entry},
    l.Pairwise descE → (insD x l).Pairwise descE := by
  intro l
  induction l with
  | nil => intro _; simp [insD, List.pairwise_singleton]
  | cons y ys ih =>
    intro h
    obtain ⟨h1, h2⟩ := List.pairwise_cons.mp h
    simp only [insD]
    split
    · rename_i hle
      rw [List.pairwise_cons]
      refine ⟨fun z hz => ?_, h⟩
      rcases List.mem_cons.mp hz with hz | hz
      · exact hz ▸ hle
      · exact le_trans (h1 z hz) hle
    · rename_i hgt
      rw [List.pairwise_cons]
      refine ⟨fun z hz => ?_, ih h2⟩
      rcases mem_insD.mp hz with hz | hz
      · exact hz ▸ le_of_lt (lt_of_not_le hgt)
      · exact h1 z hz

theorem pairwise_sortD : ∀ (l : List Entry), (sortD l).Pairwise descE := by
  intro l
  induction l with
  | nil => simp [sortD]
  | cons x xs ih => exact pairwise_insD ih

theorem foldl_max_init (l : List ℚ) : ∀ a, a ≤ l.foldl max a := by
  induction l with
  | nil => intro a; simp
  | cons c r ih => intro a; exact le_trans (le_max_left a c) (ih (max a c))

theorem foldl_max_mem {x : ℚ} : ∀ {l : List ℚ}, x ∈ l → ∀ a, x ≤ l.foldl max a := by
  intro l
  induction l with
  | nil => intro h; cases h
  | cons c r ih =>
    intro h a
    show x ≤ List.foldl max (max a c) r
    rcases List.mem_cons.mp h with h | h
    · subst h; exact le_trans (le_max_right a x) (foldl_max_init r (max a x))
    · exact ih h (max a c)

theorem le_maxD {x : ℚ} {l : List ℚ} (h : x ∈ l) : x ≤ maxD l := by
  cases l with
  | nil => cases h
  | cons v vs =>
    rcases List.mem_cons.mp h with h | h
    · exact h ▸ foldl_max_init vs v
    · exact foldl_max_mem h v

theorem foldl_min_init (l : List ℚ) : ∀ a, l.foldl min a ≤ a := by
  induction l with
  | nil => intro a; simp
  | cons c r ih => intro a; exact le_trans (ih (min a c)) (min_le_left a c)

theorem foldl_min_mem {x : ℚ} : ∀ {l : List ℚ}, x ∈ l → ∀ a, l.foldl min a ≤ x := by
  intro l
  induction l with
  | nil => intro h; cases h
  | cons c r ih =>
    intro h a
    show List.foldl min (min a c) r ≤ x
    rcases List.mem_cons.mp h with h | h
    · subst h; exact le_trans (foldl_min_init r (min a x)) (min_le_right a x)
    · exact ih h (min a c)

theorem minD_le {x : ℚ} {l : List ℚ} (h : x ∈ l) : minD l ≤ x := by
  cases l with
  | nil => cases h
  | cons v vs =>
    rcases List.mem_cons.mp h with h | h
    · exact h ▸ foldl_min_init vs v
    · exact foldl_min_mem h v

theorem descPairs_tail {x : Nat × ℚ} : ∀ {l : List (Nat × ℚ)},
    descPairs (x :: l) = true → descPairs l = true := by
  intro l
  cases l with
  | nil => intro _; rfl
  | cons y r =>
    intro h
    exact (Bool.and_eq_true_iff.mp h).2

theorem insP_sorted (x : Nat × ℚ) (l : List (Nat × ℚ))
    (h : descPairs (x :: l) = true) : insP x l = x :: l := by
  cases l with
  | nil => rfl
  | cons y ys =>
    have hle : y.2 ≤ x.2 := of_decide_eq_true (Bool.and_eq_true_iff.mp h).1
    simp [insP, hle]

theorem sortPairs_sorted : ∀ (l : List (Nat × ℚ)), descPairs l = true → sortPairs l = l := by
  intro l
  induction l with
  | nil => intro _; rfl
  | cons x xs ih =>
    intro h
    show insP x (sortPairs xs) = x :: xs
    rw [ih (descPairs_tail h)]
    exact insP_sorted x xs h

/-! ## Claim C1 -/

/-- C1 (amended): the raw fused score is
`bm25_weight * 1/(k + rankB) + semantic_weight * 1/(k + rankS)` where rank
is the document's 0-based position in the channel mapping's iteration
order, and an absent channel contributes exactly 0.  When each channel's
ids are already listed in descending channel-score order — the normal
output of the retrieval channels — this iteration rank coincides with the
descending-score rank of the spec, i.e. the code's score equals the
spec-modelled `specRawScore`. -/
theorem fusion_raw_rank (k wB wS : ℚ) (b s : ChannelResult) (d : Nat)
    (hb : descPairs b = true) (hs : descPairs s = true)
    (hd : d ∈ b.map Prod.fst ∨ d ∈ s.map Prod.fst) :
    rawScore k wB wS b s d = specRawScore k wB wS b s d := by
  have hrb : specRank b d = (b.map Prod.fst).indexOf d := by
    unfold specRank; rw [sortPairs_sorted b hb]
  have hrs : specRank s d = (s.map Prod.fst).indexOf d := by
    unfold specRank; rw [sortPairs_sorted s hs]
  unfold rawScore specRawScore
  rw [hrb, hrs]
  dsimp only
  split_ifs <;> rfl

/-- Witness for C1 on descending-sorted channel results. -/
theorem fusion_raw_rank_witness :
    (descPairs [(5, (2 : ℚ)), (7, 1)] = true ∧
      descPairs [(7, (3 : ℚ))] = true ∧
      7 ∈ ([(5, (2 : ℚ)), (7, 1)] : ChannelResult).map Prod.fst) ∧
    rawScore 60 1 (3 / 2) [(5, (2 : ℚ)), (7, 1)] [(7, (3 : ℚ))] 7 =
      specRawScore 60 1 (3 / 2) [(5, (2 : ℚ)), (7, 1)] [(7, (3 : ℚ))] 7 :=
  ⟨⟨by decide, by decide, by decide⟩,
    fusion_raw_rank 60 1 (3 / 2) _ _ 7 (by decide) (by decide) (Or.inl (by decide))⟩

/-- Counterexample to C1 as stated: on a channel mapping whose iteration
order is not descending by score, the code's raw score uses the iteration
rank (rank 0 for the first-inserted id), not the descending-score rank the
claim prescribes. -/
theorem fusion_raw_rank_cex :
    rawScore 60 1 1 [(1, (1 : ℚ)), (2, 2)] [] 1 = 1 / 60 ∧
    specRawScore 60 1 1 [(1, (1 : ℚ)), (2, 2)] [] 1 = 1 / 61 ∧
    (1 : ℚ) / 60 ≠ 1 / 61 := by
  refine ⟨?_, ?_, by norm_num⟩
  · unfold rawScore
    dsimp only
    rw [show (([(1, (1 : ℚ)), (2, 2)] : ChannelResult).map Prod.fst).contains 1 = true from
      by decide]
    rw [show (([] : ChannelResult).map Prod.fst).contains 1 = false from by decide]
    rw [show List.indexOf 1 (([(1, (1 : ℚ)), (2, 2)] : ChannelResult).map Prod.fst) = 0 from
      by decide]
    norm_num
  · unfold specRawScore
    rw [show (([(1, (1 : ℚ)), (2, 2)] : ChannelResult).map Prod.fst).contains 1 = true from
      by decide]
    rw [show (([] : ChannelResult).map Prod.fst).contains 1 = false from by decide]
    have h : specRank [(1, (1 : ℚ)), (2, 2)] 1 = 1 := by
      unfold specRank
      rw [show sortPairs [(1, (1 : ℚ)), (2, 2)] = [(2, 2), (1, 1)] from by
        unfold sortPairs sortPairs sortPairs insP insP
        norm_num]
      decide
    rw [h]
    norm_num

/-! ## Claim C6 -/

/-- The fuse output is empty or a stable descending sort. -/
theorem fuse_shape (k wB wS : ℚ) (order : List Nat) (b s : ChannelResult) :
    fuse k wB wS order b s = [] ∨ ∃ l, fuse k wB wS order b s = sortD l := by
  cases order with
  | nil => left; rfl
  | cons d0 ds =>
    unfold fuse
    dsimp only
    split
    · exact Or.inr ⟨_, rfl⟩
    · exact Or.inr ⟨_, rfl⟩

/-- C6 (amended): for every iteration order of the id set, the fused
output is sorted by normalized score, descending; entries with equal
normalized score keep the iteration order of the id set — which the code
does not control and which is not ascending-document-id in general — so
the output is deterministic only relative to that iteration order. -/
theorem fuse_sorted_desc (k wB wS : ℚ) (order : List Nat) (b s : ChannelResult) :
    (fuse k wB wS order b s).Pairwise descE := by
  rcases fuse_shape k wB wS order b s with h | ⟨l, h⟩
  · rw [h]; exact List.Pairwise.nil
  · rw [h]; exact pairwise_sortD l

/-- Iteration rank 0 in the semantic channel for the tie example. -/
theorem fuse_tie_raw_sem :
    rawScore 60 1 1 [(1, (1 : ℚ))] [(2, (1 : ℚ))] 2 = 1 / 60 := by
  unfold rawScore
  dsimp only
  rw [show (([(1, (1 : ℚ))] : ChannelResult).map Prod.fst).contains 2 = false from by decide]
  rw [show (([(2, (1 : ℚ))] : ChannelResult).map Prod.fst).contains 2 = true from by decide]
  rw [show List.indexOf 2 (([(2, (1 : ℚ))] : ChannelResult).map Prod.fst) = 0 from by decide]
  norm_num

/-- Iteration rank 0 in the bm25 channel for the tie example. -/
theorem fuse_tie_raw_bm25 :
    rawScore 60 1 1 [(1, (1 : ℚ))] [(2, (1 : ℚ))] 1 = 1 / 60 := by
  unfold rawScore
  dsimp only
  rw [show (([(1, (1 : ℚ))] : ChannelResult).map Prod.fst).contains 1 = true from by decide]
  rw [show (([(2, (1 : ℚ))] : ChannelResult).map Prod.fst).contains 1 = false from by decide]
  rw [show List.indexOf 1 (([(1, (1 : ℚ))] : ChannelResult).map Prod.fst) = 0 from by decide]
  norm_num

/-- Counterexample to C6 as stated: both `[2, 1]` and `[1, 2]` are valid
iteration orders of the two-element id set for these inputs, their two equal
normalized scores come out in iteration order — under `[2, 1]` the tie is
ordered 2 before 1, not ascending — and the two runs produce different
ordered outputs. -/
theorem fuse_tie_order_cex :
    fuse 60 1 1 [2, 1] [(1, (1 : ℚ))] [(2, 1)] =
      [(2, 1, Src.semantic), (1, 1, Src.bm25)] ∧
    fuse 60 1 1 [1, 2] [(1, (1 : ℚ))] [(2, 1)] =
      [(1, 1, Src.bm25), (2, 1, Src.semantic)] ∧
    validOrder [2, 1] [(1, (1 : ℚ))] [(2, 1)] ∧
    validOrder [1, 2] [(1, (1 : ℚ))] [(2, 1)] ∧
    fuse 60 1 1 [2, 1] [(1, (1 : ℚ))] [(2, 1)] ≠
      fuse 60 1 1 [1, 2] [(1, (1 : ℚ))] [(2, 1)] := by
  have h1 : fuse 60 1 1 [2, 1] [(1, (1 : ℚ))] [(2, 1)] =
      [(2, 1, Src.semantic), (1, 1, Src.bm25)] := by
    unfold fuse
    dsimp only [List.map_cons, List.map_nil]
    rw [fuse_tie_raw_sem, fuse_tie_raw_bm25]
    rw [show srcOf [(1, (1 : ℚ))] [(2, 1)] 2 = Src.semantic from by decide]
    rw [show srcOf [(1, (1 : ℚ))] [(2, 1)] 1 = Src.bm25 from by decide]
    norm_num [maxD, minD, sortD, insD]
  have h2 : fuse 60 1 1 [1, 2] [(1, (1 : ℚ))] [(2, 1)] =
      [(1, 1, Src.bm25), (2, 1, Src.semantic)] := by
    unfold fuse
    dsimp only [List.map_cons, List.map_nil]
    rw [fuse_tie_raw_sem, fuse_tie_raw_bm25]
    rw [show srcOf [(1, (1 : ℚ))] [(2, 1)] 2 = Src.semantic from by decide]
    rw [show srcOf [(1, (1 : ℚ))] [(2, 1)] 1 = Src.bm25 from by decide]
    norm_num [maxD, minD, sortD, insD]
  refine ⟨h1, h2, ⟨by decide, fun d => ?_⟩, ⟨by decide, fun d => ?_⟩, ?_⟩
  · simp only [List.mem_cons, List.not_mem_nil, or_false, List.map_cons, List.map_nil]
    try tauto
  · simp only [List.mem_cons, List.not_mem_nil, or_false, List.map_cons, List.map_nil]
    try tauto
  · rw [h1, h2]
    decide

/-! ## Claim C4 -/

/-- Under a positive RRF constant no reciprocal-rank denominator can
vanish, so the error-aware raw score agrees with the totalized one. -/
theorem rawScoreE_pos (k wB wS : ℚ) (b s : ChannelResult) (d : Nat) (hk : 0 < k) :
    rawScoreE k wB wS b s d = some (rawScore k wB wS b s d) := by
  unfold rawScoreE rawScore
  dsimp only
  rw [if_neg, if_neg]
  · rintro ⟨-, h0⟩
    exact absurd h0 (ne_of_gt (add_pos_of_pos_of_nonneg hk (Nat.cast_nonneg _)))
  · rintro ⟨-, h0⟩
    exact absurd h0 (ne_of_gt (add_pos_of_pos_of_nonneg hk (Nat.cast_nonneg _)))

/-- Under a positive RRF constant the scoring loop raises nothing. -/
theorem scoredE_pos (k wB wS : ℚ) (b s : ChannelResult) (hk : 0 < k) :
    ∀ order : List Nat,
      scoredE k wB wS b s order =
        some (order.map (fun d => (d, rawScore k wB wS b s d))) := by
  intro order
  induction order with
  | nil => rfl
  | cons d ds ih =>
    unfold scoredE
    rw [rawScoreE_pos k wB wS b s d hk, ih]
    rfl

/-- Under a positive RRF constant the error-aware fuse agrees with the
totalized fuse. -/
theorem fuseE_pos (k wB wS : ℚ) (order : List Nat) (b s : ChannelResult) (hk : 0 < k) :
    fuseE k wB wS order b s = some (fuse k wB wS order b s) := by
  unfold fuseE
  rw [scoredE_pos k wB wS b s hk order]
  cases order with
  | nil => rfl
  | cons d0 ds =>
    dsimp only [List.map_cons]
    unfold fuse
    dsimp only [List.map_cons]
    split_ifs <;> rfl

/-- The totalized singleton fusion value (tied to the program's behaviour
only through `fuseE_pos`, i.e. for positive k). -/
theorem fuse_singleton_val (k wB wS q : ℚ) (a : Nat) :
    fuse k wB wS [a] [(a, q)] [] = [(a, 1, Src.bm25)] := by
  unfold fuse
  dsimp only [List.map_cons, List.map_nil]
  have hc : maxD [rawScore k wB wS [(a, q)] [] a] =
      minD [rawScore k wB wS [(a, q)] [] a] := rfl
  rw [if_pos hc]
  simp [sortD, insD, srcOf]

/-- C4 (amended): fusing two empty channel results returns the empty
sequence for any weights and k (no division is evaluated); for any weights
and any positive k — at k = 0 the singleton call instead raises
ZeroDivisionError, see the counterexample — the error-aware fuse agrees
with the totalized fuse, fusing a singleton bm25 (lexical) result with an
empty semantic result returns exactly one entry for that document with
normalized score 1 and provenance bm25, and every fused entry's normalized
score lies in [0, 1], equals 1 when the raw maximum equals the raw
minimum, and equals `(raw - min)/(max - min)` otherwise. -/
theorem fuse_edge_and_normalization :
    (∀ k wB wS : ℚ, fuseE k wB wS [] [] [] = some []) ∧
    (∀ (k wB wS : ℚ) (order : List Nat) (b s : ChannelResult), 0 < k →
      fuseE k wB wS order b s = some (fuse k wB wS order b s)) ∧
    (∀ (k wB wS q : ℚ) (a : Nat), 0 < k →
      fuseE k wB wS [a] [(a, q)] [] = some [(a, 1, Src.bm25)]) ∧
    (∀ (k wB wS : ℚ) (order : List Nat) (b s : ChannelResult) (e : Entry), 0 < k →
      e ∈ fuse k wB wS order b s →
        0 ≤ e.2.1 ∧ e.2.1 ≤ 1 ∧
        (maxD (order.map (rawScore k wB wS b s)) = minD (order.map (rawScore k wB wS b s)) →
          e.2.1 = 1) ∧
        (maxD (order.map (rawScore k wB wS b s)) ≠ minD (order.map (rawScore k wB wS b s)) →
          e.2.1 = (rawScore k wB wS b s e.1 - minD (order.map (rawScore k wB wS b s))) /
            (maxD (order.map (rawScore k wB wS b s)) - minD (order.map (rawScore k wB wS b s))))) := by
  refine ⟨fun k wB wS => rfl, fun k wB wS order b s hk => fuseE_pos k wB wS order b s hk,
    ?_, ?_⟩
  · intro k wB wS q a hk
    rw [fuseE_pos k wB wS [a] [(a, q)] [] hk, fuse_singleton_val]
  · intro k wB wS order b s e _hk he
    cases order with
    | nil => exact absurd he (by simp [fuse])
    | cons d0 ds =>
      unfold fuse at he
      dsimp only at he
      have hvals : ((d0 :: ds).map (fun d => (d, rawScore k wB wS b s d))).map Prod.snd =
          (d0 :: ds).map (rawScore k wB wS b s) := by
        simp [List.map_map, Function.comp]
      rw [hvals] at he
      by_cases hMm : maxD ((d0 :: ds).map (rawScore k wB wS b s)) =
          minD ((d0 :: ds).map (rawScore k wB wS b s))
      · rw [if_pos hMm] at he
        obtain ⟨p, hp, hpe⟩ := List.mem_map.mp (mem_sortD.mp he)
        refine ⟨?_, ?_, fun _ => ?_, fun hne => absurd hMm hne⟩
        · rw [← hpe]; norm_num
        · rw [← hpe]
        · rw [← hpe]
      · rw [if_neg hMm] at he
        obtain ⟨p, hp, hpe⟩ := List.mem_map.mp (mem_sortD.mp he)
        obtain ⟨d, hd2, hdp⟩ := List.mem_map.mp hp
        subst hdp
        have hraw_mem : rawScore k wB wS b s d ∈ (d0 :: ds).map (rawScore k wB wS b s) :=
          List.mem_map_of_mem _ hd2
        have hle1 := minD_le hraw_mem
        have hle2 := le_maxD hraw_mem
        have hlt : minD ((d0 :: ds).map (rawScore k wB wS b s)) <
            maxD ((d0 :: ds).map (rawScore k wB wS b s)) :=
          lt_of_le_of_ne (le_trans hle1 hle2) (fun h => hMm h.symm)
        have hpos := sub_pos.mpr hlt
        rw [← hpe]
        refine ⟨div_nonneg (sub_nonneg.mpr hle1) (le_of_lt hpos), ?_,
          fun h => absurd h hMm, fun _ => rfl⟩
        exact (div_le_one hpos).mpr (sub_le_sub_right hle2 _)

/-- Bm25-channel raw score for the normalization witness example. -/
theorem fuse_norm_raw_bm25 :
    rawScore 60 1 2 [(1, (1 : ℚ))] [(2, (1 : ℚ))] 1 = 1 / 60 := by
  unfold rawScore
  dsimp only
  rw [show (([(1, (1 : ℚ))] : ChannelResult).map Prod.fst).contains 1 = true from by decide]
  rw [show (([(2, (1 : ℚ))] : ChannelResult).map Prod.fst).contains 1 = false from by decide]
  rw [show List.indexOf 1 (([(1, (1 : ℚ))] : ChannelResult).map Prod.fst) = 0 from by decide]
  norm_num

/-- Semantic-channel raw score for the normalization witness example. -/
theorem fuse_norm_raw_sem :
    rawScore 60 1 2 [(1, (1 : ℚ))] [(2, (1 : ℚ))] 2 = 1 / 30 := by
  unfold rawScore
  dsimp only
  rw [show (([(1, (1 : ℚ))] : ChannelResult).map Prod.fst).contains 2 = false from by decide]
  rw [show (([(2, (1 : ℚ))] : ChannelResult).map Prod.fst).contains 2 = true from by decide]
  rw [show List.indexOf 2 (([(2, (1 : ℚ))] : ChannelResult).map Prod.fst) = 0 from by decide]
  norm_num

/-- A concrete fused output with distinct raw scores. -/
theorem fuse_norm_eval :
    fuse 60 1 2 [1, 2] [(1, (1 : ℚ))] [(2, 1)] =
      [(2, 1, Src.semantic), (1, 0, Src.bm25)] := by
  unfold fuse
  dsimp only [List.map_cons, List.map_nil]
  rw [fuse_norm_raw_bm25, fuse_norm_raw_sem]
  rw [show srcOf [(1, (1 : ℚ))] [(2, 1)] 2 = Src.semantic from by decide]
  rw [show srcOf [(1, (1 : ℚ))] [(2, 1)] 1 = Src.bm25 from by decide]
  norm_num [maxD, minD, sortD, insD, max_def, min_def]

/-- Witness for C4 on a fused entry of a concrete run with a positive k. -/
theorem fuse_edge_and_normalization_witness :
    (0 : ℚ) < 60 ∧
    ((2 : Nat), (1 : ℚ), Src.semantic) ∈ fuse 60 1 2 [1, 2] [(1, (1 : ℚ))] [(2, 1)] ∧
    (0 : ℚ) ≤ ((2 : Nat), (1 : ℚ), Src.semantic).2.1 ∧
    ((2 : Nat), (1 : ℚ), Src.semantic).2.1 ≤ 1 :=
  have hmem : ((2 : Nat), (1 : ℚ), Src.semantic) ∈
      fuse 60 1 2 [1, 2] [(1, (1 : ℚ))] [(2, 1)] := by
    rw [fuse_norm_eval]
    exact List.mem_cons_self _ _
  ⟨by norm_num, hmem,
    (fuse_edge_and_normalization.2.2.2 60 1 2 [1, 2] _ _ _ (by norm_num) hmem).1,
    (fuse_edge_and_normalization.2.2.2 60 1 2 [1, 2] _ _ _ (by norm_num) hmem).2.1⟩

/-- The singleton raw score raises at k = 0: the denominator `0 + 0`
vanishes at rank 0. -/
theorem rawScoreE_k0 :
    rawScoreE 0 1 1 [(1, (1 : ℚ))] [] 1 = none := by
  unfold rawScoreE
  dsimp only
  rw [if_pos]
  refine ⟨by decide, ?_⟩
  rw [show (([(1, (1 : ℚ))] : ChannelResult).map Prod.fst).contains 1 = true from by decide]
  rw [if_pos rfl]
  rw [show List.indexOf 1 (([(1, (1 : ℚ))] : ChannelResult).map Prod.fst) = 0 from by decide]
  norm_num

/-- Counterexample to C4 as stated: with k = 0 the singleton fusion
`fuse({A: 1.0}, {})` raises ZeroDivisionError — the call yields no result
sequence at all — rather than returning the single entry with normalized
score 1, so the claim's "for any weights and k" fails. -/
theorem fuse_singleton_k0_cex :
    fuseE 0 1 1 [1] [(1, (1 : ℚ))] [] = none ∧
    (none : Option (List Entry)) ≠ some [(1, 1, Src.bm25)] := by
  constructor
  · unfold fuseE scoredE
    rw [rawScoreE_k0]
  · intro h
    exact Option.noConfusion h

/-! ## Claim C8 -/

/-- Raw score of a document heading both channel id lists. -/
theorem rawScore_head (k w1 w2 : ℚ) (d : Nat) (sb ss : ℚ) (bt st : ChannelResult) :
    rawScore k w1 w2 ((d, sb) :: bt) ((d, ss) :: st) d = w1 * (1 / k) + w2 * (1 / k) := by
  unfold rawScore
  dsimp only [List.map_cons]
  rw [show ((d :: bt.map Prod.fst).contains d) = true from by simp]
  rw [show ((d :: st.map Prod.fst).contains d) = true from by simp]
  rw [List.indexOf_cons_self]
  norm_num

/-- Raw score of a document present only in the bm25 channel. -/
theorem rawScore_only_b (k w1 w2 : ℚ) (b s : ChannelResult) (dq : Nat)
    (h1 : (b.map Prod.fst).contains dq = true)
    (h2 : (s.map Prod.fst).contains dq = false) :
    rawScore k w1 w2 b s dq = w1 * (1 / (k + ((b.map Prod.fst).indexOf dq : ℚ))) := by
  unfold rawScore
  dsimp only
  rw [h1, h2]
  norm_num

/-- Raw score of a document present only in the semantic channel. -/
theorem rawScore_only_s (k w1 w2 : ℚ) (b s : ChannelResult) (dq : Nat)
    (h1 : (b.map Prod.fst).contains dq = false)
    (h2 : (s.map Prod.fst).contains dq = true) :
    rawScore k w1 w2 b s dq = w2 * (1 / (k + ((s.map Prod.fst).indexOf dq : ℚ))) := by
  unfold rawScore
  dsimp only
  rw [h1, h2]
  norm_num

/-- A single weighted reciprocal term is below twice the rank-0 term. -/
theorem single_channel_lt (k w : ℚ) (hk : 0 < k) (hw : 0 < w) (n : Nat) :
    w * (1 / (k + (n : ℚ))) < w * (1 / k) + w * (1 / k) := by
  have h1 : (0 : ℚ) ≤ (n : ℚ) := Nat.cast_nonneg n
  have h2 : 1 / (k + (n : ℚ)) ≤ 1 / k :=
    one_div_le_one_div_of_le hk (le_add_of_nonneg_right h1)
  have h3 : w * (1 / (k + (n : ℚ))) ≤ w * (1 / k) :=
    mul_le_mul_of_nonneg_left h2 (le_of_lt hw)
  have h4 : 0 < w * (1 / k) := mul_pos hw (one_div_pos.mpr hk)
  exact lt_of_le_of_lt h3 (lt_add_of_pos_right _ h4)

/-- C8: with equal positive weights (and a positive RRF constant `k`, the
configuration's default being 60), a document at rank 0 in both channels
gets provenance `both`, and its raw pre-normalization score strictly
exceeds the raw score of every document present in exactly one channel. -/
theorem fusion_both_rank0_dominates (k w : ℚ) (hk : 0 < k) (hw : 0 < w)
    (d : Nat) (sb ss : ℚ) (bt st : ChannelResult) (dq : Nat)
    (hdq : ((((d, sb) :: bt).map Prod.fst).contains dq = true ∧
             (((d, ss) :: st).map Prod.fst).contains dq = false) ∨
           ((((d, sb) :: bt).map Prod.fst).contains dq = false ∧
             (((d, ss) :: st).map Prod.fst).contains dq = true)) :
    srcOf ((d, sb) :: bt) ((d, ss) :: st) d = Src.both ∧
    rawScore k w w ((d, sb) :: bt) ((d, ss) :: st) dq <
      rawScore k w w ((d, sb) :: bt) ((d, ss) :: st) d := by
  constructor
  · unfold srcOf
    dsimp only [List.map_cons]
    rw [show ((d :: bt.map Prod.fst).contains d) = true from by simp]
    rw [show ((d :: st.map Prod.fst).contains d) = true from by simp]
    rfl
  · rw [rawScore_head]
    rcases hdq with ⟨h1, h2⟩ | ⟨h1, h2⟩
    · rw [rawScore_only_b k w w _ _ dq h1 h2]
      exact single_channel_lt k w hk hw _
    · rw [rawScore_only_s k w w _ _ dq h1 h2]
      exact single_channel_lt k w hk hw _

/-- Witness for C8 at a concrete pair of channel results. -/
theorem fusion_both_rank0_dominates_witness :
    ((0 : ℚ) < 60 ∧ (0 : ℚ) < 1) ∧
    srcOf [(3, (5 : ℚ)), (4, 2)] [(3, (7 : ℚ))] 3 = Src.both ∧
    rawScore 60 1 1 [(3, (5 : ℚ)), (4, 2)] [(3, (7 : ℚ))] 4 <
      rawScore 60 1 1 [(3, (5 : ℚ)), (4, 2)] [(3, (7 : ℚ))] 3 :=
  ⟨⟨by norm_num, by norm_num⟩,
    fusion_both_rank0_dominates 60 1 (by norm_num) (by norm_num) 3 5 7 [(4, 2)] [] 4
      (Or.inl ⟨by decide, by decide⟩)⟩

/-! ## Claim C7 -/

/-- C7: in the `semantic` and `fusion` strategies the semantic collaborator
is invoked with the original, unstripped query text (with the extracted
filters, kept or dropped per the `apply_filters` configuration), while in
the `bm25` and `fusion` strategies the bm25 (lexical) collaborator is
invoked with the extractor's residual search term plus the extracted
filters. -/
theorem orchestrator_query_texts (pB pS : List Char → ParsedQuery) (af : Bool) (q : List Char) :
    searchCalls "semantic" pB pS af q =
      some (none, some ⟨q, if af then some (pS q).filters else none⟩) ∧
    searchCalls "fusion" pB pS af q =
      some (some ⟨(pB q).term, (pB q).filters⟩,
        some ⟨q, if af then some (pS q).filters else none⟩) ∧
    searchCalls "bm25" pB pS af q =
      some (some ⟨(pB q).term, (pB q).filters⟩, none) := by
  refine ⟨?_, ?_, ?_⟩ <;> rfl
